import Mathlib

/-!
Verification development for the blog build script (`build.rs`).

The script scans `src/posts` for `*.md` files, splits each file on the
literal separator `%%` into a header and a body, parses the header into a
`PostCfg` record (author, title, published, optional edited), writes a
materialized artifact (banner + body) per post into the build output
directory, builds a module tree with a single `all_posts` node holding one
leaf per post, and serializes that tree to generated Rust source.

Strings are modelled with Lean `String`/`List Char`; the handful of Rust
`str` primitives the script uses (`split_once`, `strip_suffix`, `trim`,
`lines`) are embedded below over `List Char`.  Dates (`chrono::NaiveDate`
restricted to the canonical `%Y-%m-%d` format used by the script) are
embedded as year/month/day triples with proleptic-Gregorian validity.
Filesystem writes are embedded as explicit accumulation of `Artifact`
values, and `panic!`/`?`-style aborts as `Except String`.
-/

/-! Section: the Rust `str` primitives used by the script -/

/-- Model of ASCII whitespace as used by `str::trim` on the header lines
(the headers in scope only contain spaces, tabs, CR and LF). -/
def isWs (c : Char) : Bool :=
  c = ' ' || c = '\t' || c = '\n' || c = '\r'

/-- Model of `str::trim` on a character list. -/
def trimL (l : List Char) : List Char :=
  ((l.dropWhile isWs).reverse.dropWhile isWs).reverse

/-- Model of `str::trim` on a string. -/
def trimStr (s : String) : String :=
  ⟨trimL s.data⟩

/-- Test whether `a` is a prefix of `b` (Boolean, by direct recursion). -/
def startsWithL : List Char → List Char → Bool
  | [], _ => true
  | _ :: _, [] => false
  | a :: as, b :: bs => a = b && startsWithL as bs

/-- Model of `str::split_once(sep)`: split at the first occurrence of `sep`,
returning the parts before and after it, or `none` when absent. -/
def splitOnceL (sep : List Char) : List Char → Option (List Char × List Char)
  | [] => if startsWithL sep [] then some ([], ([] : List Char).drop sep.length) else none
  | c :: rest =>
    if startsWithL sep (c :: rest) then some ([], (c :: rest).drop sep.length)
    else (splitOnceL sep rest).map fun p => (c :: p.1, p.2)

/-- Model of `str::split_once` on strings. -/
def splitOnceStr (s sep : String) : Option (String × String) :=
  (splitOnceL sep.data s.data).map fun p => (⟨p.1⟩, ⟨p.2⟩)

/-- Test whether `a` is a suffix of `b`. -/
def endsWithL (a b : List Char) : Bool :=
  startsWithL a.reverse b.reverse

/-- Model of `str::strip_suffix(sep)`: remove `sep` from the end when present. -/
def stripSuffixL (sep l : List Char) : Option (List Char) :=
  if endsWithL sep l then some (l.take (l.length - sep.length)) else none

/-- Model of `str::strip_suffix` on strings. -/
def stripSuffixStr (s sep : String) : Option String :=
  (stripSuffixL sep.data s.data).map fun l => ⟨l⟩

/-- Split a character list on every occurrence of the character `c`.
Together with the trim-and-skip-empty handling of the header scanner this
models `str::lines` on the header text. -/
def splitCharL (c : Char) : List Char → List (List Char)
  | [] => [[]]
  | x :: rest =>
    match splitCharL c rest with
    | [] => [[x]]
    | cur :: rs => if x = c then [] :: cur :: rs else (x :: cur) :: rs

/-- The lines of a string (split on `\x0a`). -/
def linesOf (s : String) : List String :=
  (splitCharL '\n' s.data).map fun l => ⟨l⟩

/-! Section: dates (`chrono::NaiveDate` under the canonical format) -/

/-- Gregorian leap year. -/
def isLeapYear (y : Nat) : Bool :=
  (y % 4 = 0 && y % 100 != 0) || y % 400 = 0

/-- Days in a month of the Gregorian calendar. -/
def daysInMonth (y m : Nat) : Nat :=
  if m = 2 then (if isLeapYear y then 29 else 28)
  else if m = 4 || m = 6 || m = 9 || m = 11 then 30
  else 31

/-- Validity of a year/month/day triple, years limited to the four-digit
range of the canonical `YYYY-MM-DD` format. -/
def dateValid (y m d : Nat) : Bool :=
  y ≤ 9999 && 1 ≤ m && m ≤ 12 && 1 ≤ d && d ≤ daysInMonth y m

/-- Calendar date, modelled from the canonical `YYYY-MM-DD` format the
script parses and renders (`chrono::NaiveDate` as used by `build.rs`). -/
structure NaiveDate where
  year : Nat
  month : Nat
  day : Nat
deriving DecidableEq, Repr

/-- A `NaiveDate` that denotes a real calendar date. -/
def NaiveDate.Valid (dt : NaiveDate) : Prop :=
  dateValid dt.year dt.month dt.day = true

instance (dt : NaiveDate) : Decidable dt.Valid :=
  inferInstanceAs (Decidable (dateValid dt.year dt.month dt.day = true))

deriving instance DecidableEq for Except

/-- Greedily consume up to `w` leading decimal digits, accumulating their
value (the numeric-field scanner of `chrono`'s strftime parser). -/
def takeDigits : Nat → List Char → Nat → Nat × List Char
  | 0, l, acc => (acc, l)
  | _ + 1, [], acc => (acc, [])
  | w + 1, c :: rest, acc =>
    if c.isDigit then takeDigits w rest (acc * 10 + (c.toNat - 48)) else (acc, c :: rest)

/-- Scan a numeric field of maximal width `w`: at least one digit must be
present (errors follow `chrono`'s parse errors). -/
def scanNumber (w : Nat) (l : List Char) : Except String (Nat × List Char) :=
  match l with
  | [] => .error "premature end of input"
  | c :: _ =>
    if c.isDigit then .ok (takeDigits w l 0) else .error "input contains invalid characters"

/-- Consume one expected literal character. -/
def expectChar (c : Char) : List Char → Except String (List Char)
  | [] => .error "premature end of input"
  | x :: rest => if x = c then .ok rest else .error "input contains invalid characters"

/-- Model of `NaiveDate::parse_from_str(s, "%Y-%m-%d")`: year of up to four digits,
literal `-`, month of up to two digits, literal `-`, day of up to two
digits, nothing after, and the triple must be a real calendar date. -/
def parseDate (s : String) : Except String NaiveDate :=
  match scanNumber 4 s.data with
  | .error e => .error e
  | .ok (y, l1) =>
    match expectChar '-' l1 with
    | .error e => .error e
    | .ok l2 =>
      match scanNumber 2 l2 with
      | .error e => .error e
      | .ok (m, l3) =>
        match expectChar '-' l3 with
        | .error e => .error e
        | .ok l4 =>
          match scanNumber 2 l4 with
          | .error e => .error e
          | .ok (d, l5) =>
            match l5 with
            | [] =>
              if dateValid y m d then .ok ⟨y, m, d⟩ else .error "input is out of range"
            | _ => .error "trailing input"

/-- Function `parse_naive_date` from `build.rs`: wrap the date-parse error with the
`Expected ISO 8601 Date: ` prefix. -/
def parse_naive_date (s : String) : Except String NaiveDate :=
  (parseDate s).mapError fun e => "Expected ISO 8601 Date: " ++ e

/-- The digit character for `n < 10`. -/
def digitChar (n : Nat) : Char :=
  Char.ofNat (48 + n)

/-- A number rendered as exactly two zero-padded digits. -/
def pad2 (n : Nat) : List Char :=
  [digitChar (n / 10), digitChar (n % 10)]

/-- A number rendered as exactly four zero-padded digits. -/
def pad4 (n : Nat) : List Char :=
  [digitChar (n / 1000), digitChar (n / 100 % 10), digitChar (n / 10 % 10), digitChar (n % 10)]

/-- Model of `date.format("%Y-%m-%d")` for dates in the canonical four-digit-year
range, as used when rendering banners. -/
def formatDate (dt : NaiveDate) : String :=
  ⟨pad4 dt.year ++ '-' :: (pad2 dt.month ++ '-' :: pad2 dt.day)⟩

/-! Section: the metadata parser -/

/-- Struct `PostCfg` from `build.rs` (same field order). -/
structure PostCfg where
  author : String
  published : NaiveDate
  title : String
  edited : Option NaiveDate
deriving DecidableEq, Repr

/-- The four mutable `Option` locals of `PostCfg::from_str`'s scan loop. -/
structure ScanState where
  author : Option String := none
  title : Option String := none
  published : Option NaiveDate := none
  edited : Option NaiveDate := none
deriving DecidableEq, Repr

/-- One iteration of the `for l in s.lines()` loop of `PostCfg::from_str`:
trim the line, skip it when blank, split on the first `=`, trim both
sides, and update the field selected by the key (unknown keys ignored). -/
def processLine (st : ScanState) (l : String) : Except String ScanState :=
  let t := trimStr l
  if t = "" then .ok st
  else
    match splitOnceStr t "=" with
    | none => .error "expected key=value pair"
    | some (k, v) =>
      let key := trimStr k
      let value := trimStr v
      match key with
      | "author" => .ok { st with author := some value }
      | "title" => .ok { st with title := some value }
      | "published" => (parse_naive_date value).map fun d => { st with published := some d }
      | "edited" => (parse_naive_date value).map fun d => { st with edited := some d }
      | _ => .ok st

/-- The whole scan loop of `PostCfg::from_str` over the header's lines. -/
def scanHeader (s : String) : Except String ScanState :=
  (linesOf s).foldlM processLine {}

/-- Model of `Option::ok_or`. -/
def okOr (msg : String) : Option α → Except String α
  | some a => .ok a
  | none => .error msg

/-- The final struct literal of `PostCfg::from_str`: `ok_or` checks in the
textual order author, title, published; `edited` defaults to `none`. -/
def finalize (st : ScanState) : Except String PostCfg := do
  let a ← okOr "Expected author" st.author
  let t ← okOr "Expected title" st.title
  let p ← okOr "Expected published date" st.published
  .ok ⟨a, p, t, st.edited⟩

/-- Model of `PostCfg::from_str`. -/
def PostCfg.fromStr (s : String) : Except String PostCfg :=
  scanHeader s >>= finalize

/-! Section: documents, materialization and discovery -/

/-- Struct `Post` from `build.rs`: the unique identifier of a post, the source
file's name with the `.md` extension stripped. -/
structure Post where
  filename : String
deriving DecidableEq, Repr

/-- The banner-plus-body artifact written for one post by the loop body of
`build_module_tree` (lines 119-124): each `writeln!` ends with a blank
line because its format string itself ends in `\x5cn`, and the body is the
text after the `%%` separator, copied verbatim. -/
def materialize (cfg : PostCfg) (body : String) : String :=
  "# " ++ cfg.title ++ "\n\n" ++
    "_By " ++ cfg.author ++ " on " ++ formatDate cfg.published ++ "_\n\n" ++
    (match cfg.edited with
     | some e => "Last Edited: " ++ formatDate e ++ "\n\n"
     | none => "") ++
    body

/-- The artifact content computed for one document file's content: split on
the first `%%` (the `unwrap` panic on a missing separator is modelled as an
error, either way the build aborts), parse the header, render. -/
def docArtifact (st : String) : Except String String :=
  match splitOnceStr st "%%" with
  | none => .error "called Option::unwrap on a None value"
  | some (hdr, body) => (PostCfg.fromStr hdr).map fun cfg => materialize cfg body

/-- A directory entry of `src/posts` together with its file content (empty
and unused when the entry is not a regular file). -/
structure FsEntry where
  fileName : String
  isFile : Bool
  contents : String

/-- The discovery filter of `build_module_tree` (lines 106-107): an entry
is a document when stripping `.md` succeeds and it is a regular file;
everything else is skipped with a warning. -/
def entryId (e : FsEntry) : Option String :=
  match stripSuffixStr e.fileName ".md" with
  | some id => if e.isFile then some id else none
  | none => none

/-- A side-channel artifact file written into `OUT_DIR/posts/`. -/
structure Artifact where
  path : String
  contents : String
deriving DecidableEq, Repr

/-- The `for entry in read_dir("src/posts")` loop of `build_module_tree`:
processes entries in order, accumulating written artifact files and
discovered posts; the first failing document aborts the pass, leaving the
artifacts written so far in place and writing none for the failing
document. -/
def processEntries : List FsEntry → List Artifact → List Post →
    List Artifact × Except String (List Post)
  | [], arts, posts => (arts, .ok posts)
  | e :: rest, arts, posts =>
    match entryId e with
    | none => processEntries rest arts posts
    | some id =>
      match docArtifact e.contents with
      | .error msg => (arts, .error msg)
      | .ok a =>
        processEntries rest (arts ++ [⟨"posts/" ++ e.fileName, a⟩]) (posts ++ [⟨id⟩])

/-! Section: the module tree and its emitter -/

/-- Enum `ModuleContent` from `build.rs`. -/
inductive ModuleContent where
  | post : Post → ModuleContent
deriving DecidableEq, Repr

/-- Struct `ModuleTree` from `build.rs`: a named node with ordered children and
optional content. -/
inductive ModuleTree where
  | mk : String → List ModuleTree → Option ModuleContent → ModuleTree

/-- The `name` field of a `ModuleTree`. -/
def ModuleTree.name : ModuleTree → String
  | .mk n _ _ => n

/-- The `children` field of a `ModuleTree`. -/
def ModuleTree.children : ModuleTree → List ModuleTree
  | .mk _ c _ => c

/-- The `content` field of a `ModuleTree`. -/
def ModuleTree.content : ModuleTree → Option ModuleContent
  | .mk _ _ c => c

/-- Struct `Root` from `build.rs`: the ordered top-level modules. -/
structure Root where
  modules : List ModuleTree

/-- The leaf node pushed for one post by `build_module_tree` (lines
138-142): named after the post's identifier, no children, the post as
content. -/
def mkLeaf (p : Post) : ModuleTree :=
  .mk p.filename [] (some (.post p))

/-- The tree-building tail of `build_module_tree` (lines 133-145): one
synthetic `all_posts` node holding one leaf per discovered post, in
order. -/
def build_module_tree (posts : List Post) : Root :=
  ⟨[ModuleTree.mk "all_posts" (posts.map mkLeaf) none]⟩

/-- The `Display` impl of `Post`: the content-embedding directive
referencing the post's materialized artifact. -/
def postDirective (p : Post) : String :=
  "#[doc=include_str!(p!(r###\"/posts/" ++ p.filename ++ ".md\"###))]"

/-- The `Display` impl of `ModuleContent`. -/
def ModuleContent.render : ModuleContent → String
  | .post p => postDirective p

/-- The path-resolution helper emitted first by `print` (line 150). -/
def helperLine : String :=
  "macro_rules! p \x7b ($a:tt) => \x7b concat!(env!(\"OUT_DIR\"), $a) \x7d \x7d"

mutual

/-- Function `print_inner` from `build.rs`: content directive (when present), then
the node's own `pub mod <name>\x7b`, then the children in stored order,
then the closing `\x7d`. -/
def printInner : ModuleTree → String
  | .mk n cs content =>
    (match content with
     | some c => c.render
     | none => "") ++ "pub mod " ++ n ++ "\x7b" ++ printChildren cs ++ "\x7d"

/-- The `for child in module.children` loop of `print_inner`. -/
def printChildren : List ModuleTree → String
  | [] => ""
  | m :: ms => printInner m ++ printChildren ms

end

/-- Function `print` from `build.rs`: the helper macro first, then every top-level
module in order. -/
def printTree (rt : Root) : String :=
  helperLine ++ printChildren rt.modules

/-! Section: helper lemmas about the string primitives -/

theorem startsWithL_append (a t : List Char) : startsWithL a (a ++ t) = true := by
  induction a with
  | nil => rfl
  | cons c as ih => simp [startsWithL, ih]

theorem eq_append_of_startsWithL {a b : List Char} (h : startsWithL a b = true) :
    b = a ++ b.drop a.length := by
  induction a generalizing b with
  | nil => simp
  | cons c as ih =>
    cases b with
    | nil => simp [startsWithL] at h
    | cons x bs =>
      simp only [startsWithL, Bool.and_eq_true, decide_eq_true_eq] at h
      obtain ⟨rfl, h2⟩ := h
      simpa using ih h2

theorem startsWithL_nil_eq_true {a : List Char} (h : startsWithL a [] = true) : a = [] := by
  cases a with
  | nil => rfl
  | cons c as => simp [startsWithL] at h

theorem splitOnceL_eq_some {sep l a b : List Char}
    (h : splitOnceL sep l = some (a, b)) : l = a ++ sep ++ b := by
  induction l generalizing a b with
  | nil =>
    unfold splitOnceL at h
    by_cases hp : startsWithL sep [] = true
    · obtain rfl := startsWithL_nil_eq_true hp
      rw [if_pos hp] at h
      simp only [List.drop_nil, Option.some.injEq, Prod.mk.injEq] at h
      obtain ⟨rfl, rfl⟩ := h
      rfl
    · rw [if_neg hp] at h
      exact absurd h (by simp)
  | cons c rest ih =>
    unfold splitOnceL at h
    by_cases hp : startsWithL sep (c :: rest) = true
    · rw [if_pos hp] at h
      simp only [Option.some.injEq, Prod.mk.injEq] at h
      obtain ⟨rfl, rfl⟩ := h
      simpa using eq_append_of_startsWithL hp
    · rw [if_neg hp] at h
      cases hs : splitOnceL sep rest with
      | none => rw [hs] at h; exact absurd h (by simp)
      | some p =>
        obtain ⟨p1, p2⟩ := p
        rw [hs] at h
        simp only [Option.map_some', Option.some.injEq, Prod.mk.injEq] at h
        obtain ⟨rfl, rfl⟩ := h
        simpa using ih hs

theorem splitOnceL_eq_none {sep l : List Char} (h : splitOnceL sep l = none) :
    ∀ a b, l ≠ a ++ sep ++ b := by
  induction l with
  | nil =>
    intro a b hab
    have ha : a = [] := by
      cases a with
      | nil => rfl
      | cons x xs => exact absurd hab (by simp)
    subst ha
    have hsep : sep = [] := by
      cases sep with
      | nil => rfl
      | cons x xs => exact absurd hab (by simp)
    subst hsep
    exact absurd h (by decide)
  | cons c rest ih =>
    intro a b hab
    unfold splitOnceL at h
    by_cases hp : startsWithL sep (c :: rest) = true
    · rw [if_pos hp] at h; exact absurd h (by simp)
    · rw [if_neg hp] at h
      have hrest : splitOnceL sep rest = none := by
        cases hs : splitOnceL sep rest with
        | none => rfl
        | some p => rw [hs] at h; exact absurd h (by simp)
      cases a with
      | nil =>
        simp only [List.nil_append] at hab
        rw [hab] at hp
        exact hp (startsWithL_append sep b)
      | cons a0 as =>
        simp only [List.cons_append, List.cons.injEq] at hab
        exact ih hrest as b hab.2

theorem stripSuffixL_eq_some {sep l a : List Char}
    (h : stripSuffixL sep l = some a) : l = a ++ sep := by
  unfold stripSuffixL at h
  by_cases hs : endsWithL sep l = true
  · rw [if_pos hs] at h
    obtain rfl := Option.some.inj h
    unfold endsWithL at hs
    have hrev := eq_append_of_startsWithL hs
    have hl : l = (l.reverse.drop sep.reverse.length).reverse ++ sep := by
      conv_lhs => rw [← l.reverse_reverse]
      rw [hrev]
      simp
    obtain ⟨t, rfl⟩ : ∃ t, l = t ++ sep := ⟨_, hl⟩
    rw [show (t ++ sep).length - sep.length = t.length from by simp, List.take_left]
  · rw [if_neg hs] at h
    exact absurd h (by simp)

/-! Section: helper lemmas about digits and dates -/

theorem digitChar_isDigit {n : Nat} (h : n < 10) : (digitChar n).isDigit = true := by
  interval_cases n <;> decide

theorem digitChar_val {n : Nat} (h : n < 10) : (digitChar n).toNat - 48 = n := by
  interval_cases n <;> decide

theorem daysInMonth_le_31 (y m : Nat) : daysInMonth y m ≤ 31 := by
  unfold daysInMonth
  split
  · split <;> omega
  · split <;> omega

theorem takeDigits_pad4 {y : Nat} (h : y ≤ 9999) (r : List Char) :
    takeDigits 4 (pad4 y ++ r) 0 = (y, r) := by
  have h1 : y / 1000 < 10 := by omega
  have h2 : y / 100 % 10 < 10 := Nat.mod_lt _ (by norm_num)
  have h3 : y / 10 % 10 < 10 := Nat.mod_lt _ (by norm_num)
  have h4 : y % 10 < 10 := Nat.mod_lt _ (by norm_num)
  simp only [pad4, List.cons_append, List.nil_append, takeDigits,
    digitChar_isDigit h1, digitChar_isDigit h2, digitChar_isDigit h3,
    digitChar_isDigit h4, if_true, digitChar_val h1, digitChar_val h2,
    digitChar_val h3, digitChar_val h4, Prod.mk.injEq]
  exact ⟨by omega, rfl⟩

theorem takeDigits_pad2 {n : Nat} (h : n ≤ 99) (r : List Char) :
    takeDigits 2 (pad2 n ++ r) 0 = (n, r) := by
  have h1 : n / 10 < 10 := by omega
  have h2 : n % 10 < 10 := Nat.mod_lt _ (by norm_num)
  simp only [pad2, List.cons_append, List.nil_append, takeDigits,
    digitChar_isDigit h1, digitChar_isDigit h2, if_true,
    digitChar_val h1, digitChar_val h2, Prod.mk.injEq]
  exact ⟨by omega, rfl⟩

theorem scanNumber_pad4 {y : Nat} (h : y ≤ 9999) (r : List Char) :
    scanNumber 4 (pad4 y ++ r) = .ok (y, r) := by
  have h1 : y / 1000 < 10 := by omega
  have hcons : pad4 y ++ r =
      digitChar (y / 1000) ::
        ([digitChar (y / 100 % 10), digitChar (y / 10 % 10), digitChar (y % 10)] ++ r) := by
    simp [pad4]
  rw [hcons]
  simp only [scanNumber, digitChar_isDigit h1, if_true]
  rw [← hcons, takeDigits_pad4 h r]

theorem scanNumber_pad2 {n : Nat} (h : n ≤ 99) (r : List Char) :
    scanNumber 2 (pad2 n ++ r) = .ok (n, r) := by
  have h1 : n / 10 < 10 := by omega
  have hcons : pad2 n ++ r = digitChar (n / 10) :: ([digitChar (n % 10)] ++ r) := by
    simp [pad2]
  rw [hcons]
  simp only [scanNumber, digitChar_isDigit h1, if_true]
  rw [← hcons, takeDigits_pad2 h r]

theorem dateValid_bounds {y m d : Nat} (h : dateValid y m d = true) :
    y ≤ 9999 ∧ 1 ≤ m ∧ m ≤ 12 ∧ 1 ≤ d ∧ d ≤ daysInMonth y m := by
  simp only [dateValid, Bool.and_eq_true, decide_eq_true_eq] at h
  exact ⟨h.1.1.1.1, h.1.1.1.2, h.1.1.2, h.1.2, h.2⟩

theorem expectChar_self (c : Char) (r : List Char) : expectChar c (c :: r) = .ok r := by
  simp [expectChar]

theorem scanNumber_pad2_nil {n : Nat} (h : n ≤ 99) :
    scanNumber 2 (pad2 n) = .ok (n, []) := by
  simpa using scanNumber_pad2 h []

theorem parseDate_formatDate {dt : NaiveDate} (h : dt.Valid) :
    parseDate (formatDate dt) = .ok dt := by
  obtain ⟨y, m, d⟩ := dt
  have hv : dateValid y m d = true := h
  obtain ⟨hy, hm1, hm2, hd1, hd2⟩ := dateValid_bounds hv
  have hm : m ≤ 99 := by omega
  have hd : d ≤ 99 := by
    have := daysInMonth_le_31 y m
    omega
  unfold parseDate formatDate
  simp only [scanNumber_pad4 hy, expectChar_self, scanNumber_pad2 hm,
    scanNumber_pad2_nil hd, hv, if_true]

/-! Section: claims -/

/-- Claim C7: for every valid calendar date, rendering it with the canonical
`YYYY-MM-DD` formatter used in banners and re-parsing the resulting string
with the metadata parser's date parser yields the original date. -/
theorem c7_date_roundtrip (dt : NaiveDate) (h : dt.Valid) :
    parse_naive_date (formatDate dt) = .ok dt := by
  unfold parse_naive_date
  rw [parseDate_formatDate h]
  rfl

/-- Claim C7 witness at the date 2024-01-02. -/
theorem c7_witness :
    NaiveDate.Valid ⟨2024, 1, 2⟩ ∧
      parse_naive_date (formatDate ⟨2024, 1, 2⟩) = .ok ⟨2024, 1, 2⟩ :=
  ⟨by decide, c7_date_roundtrip ⟨2024, 1, 2⟩ (by decide)⟩

/-- Claim C1 counterexample: on the spec's example input the artifact the
code writes is `# Hello\x0a\x0a_By Jane on 2024-01-02_\x0a\x0a\x0aBody text.`
(the body after `%%` keeps its leading newline, and each banner `writeln!`
already ends in a blank line), not the `...\x0a\x0aBody text.` the claim
states. -/
theorem c1_counterexample :
    docArtifact "author = Jane\ntitle = Hello\npublished = 2024-01-02\n%%\nBody text." =
      .ok "# Hello\n\n_By Jane on 2024-01-02_\n\n\nBody text." ∧
    ("# Hello\n\n_By Jane on 2024-01-02_\n\n\nBody text." : String) ≠
      "# Hello\n\n_By Jane on 2024-01-02_\n\nBody text." := by
  constructor
  · decide
  · decide

/-- Claim C1 (amended): for every document whose metadata parses, the
materialized artifact is the banner followed by the body, in order: the
title line, a blank line, the author/published line, a blank line, the
optional last-edited line followed by a blank line, then the raw body
verbatim (including any newline right after the `%%` separator). -/
theorem c1_artifact (st hdr body : String) (cfg : PostCfg)
    (hsplit : splitOnceStr st "%%" = some (hdr, body))
    (hcfg : PostCfg.fromStr hdr = .ok cfg) :
    docArtifact st =
      .ok ("# " ++ cfg.title ++ "\n\n" ++
        "_By " ++ cfg.author ++ " on " ++ formatDate cfg.published ++ "_\n\n" ++
        (match cfg.edited with
         | some e => "Last Edited: " ++ formatDate e ++ "\n\n"
         | none => "") ++ body) := by
  unfold docArtifact
  simp only [hsplit, hcfg, Except.map, materialize]

/-- Claim C1 witness at the spec's example input. -/
theorem c1_witness :
    docArtifact "author = Jane\ntitle = Hello\npublished = 2024-01-02\n%%\nBody text." =
      .ok "# Hello\n\n_By Jane on 2024-01-02_\n\n\nBody text." :=
  c1_artifact _ "author = Jane\ntitle = Hello\npublished = 2024-01-02\n" "\nBody text."
    ⟨"Jane", ⟨2024, 1, 2⟩, "Hello", none⟩ (by decide) (by decide)

/-- Claim C4: when the scan of all header lines leaves one of the required
fields unset, parsing fails naming exactly the first-checked missing field,
in the fixed order author, then title, then published. -/
theorem c4_missing_field (s : String) (st : ScanState)
    (hscan : scanHeader s = .ok st) :
    (st.author = none → PostCfg.fromStr s = .error "Expected author") ∧
    (st.author ≠ none → st.title = none → PostCfg.fromStr s = .error "Expected title") ∧
    (st.author ≠ none → st.title ≠ none → st.published = none →
      PostCfg.fromStr s = .error "Expected published date") := by
  have hfs : PostCfg.fromStr s = finalize st := by
    unfold PostCfg.fromStr
    rw [hscan]
    rfl
  refine ⟨?_, ?_, ?_⟩
  · intro ha
    rw [hfs]
    unfold finalize
    rw [ha]
    rfl
  · intro ha ht
    rw [hfs]
    unfold finalize
    obtain ⟨a, ha'⟩ := Option.ne_none_iff_exists'.mp ha
    rw [ha', ht]
    rfl
  · intro ha ht hp
    rw [hfs]
    unfold finalize
    obtain ⟨a, ha'⟩ := Option.ne_none_iff_exists'.mp ha
    obtain ⟨t, ht'⟩ := Option.ne_none_iff_exists'.mp ht
    rw [ha', ht', hp]
    rfl

/-- Claim C4 witness: a header with title and published but no author fails
with the author error. -/
theorem c4_witness :
    PostCfg.fromStr "title = Hello\npublished = 2024-01-02" = .error "Expected author" :=
  (c4_missing_field "title = Hello\npublished = 2024-01-02"
      ⟨none, some "Hello", some ⟨2024, 1, 2⟩, none⟩ (by decide)).1 (by decide)

/-- Claim C5: the document content is split on the first occurrence of the
two-character separator `%%` into a header and a body (their concatenation
around one `%%` reconstructs the content), and when the separator occurs
nowhere in the file the document processing aborts instead of producing an
artifact. -/
theorem c5_separator_split (st : String) :
    ((∀ a b : List Char, st.data ≠ a ++ ['%', '%'] ++ b) →
      docArtifact st = .error "called Option::unwrap on a None value") ∧
    (∀ hdr body : String, splitOnceStr st "%%" = some (hdr, body) →
      st.data = hdr.data ++ ['%', '%'] ++ body.data ∧
      docArtifact st = (PostCfg.fromStr hdr).map fun cfg => materialize cfg body) := by
  constructor
  · intro hno
    unfold docArtifact splitOnceStr
    cases hs : splitOnceL "%%".data st.data with
    | none => rfl
    | some q =>
      obtain ⟨a, b⟩ := q
      have hdecomp := splitOnceL_eq_some hs
      exact absurd hdecomp (hno a b)
  · intro hdr body hs
    have hq : splitOnceL "%%".data st.data = some (hdr.data, body.data) := by
      unfold splitOnceStr at hs
      cases hq0 : splitOnceL "%%".data st.data with
      | none => rw [hq0] at hs; exact absurd hs (by simp)
      | some q =>
        rw [hq0] at hs
        simp only [Option.map_some', Option.some.injEq, Prod.mk.injEq] at hs
        obtain ⟨h1, h2⟩ := hs
        rw [← h1, ← h2]
    refine ⟨splitOnceL_eq_some hq, ?_⟩
    unfold docArtifact
    rw [hs]

/-- Claim C5 witness: a concrete document with a separator decomposes around
it and is processed further. -/
theorem c5_witness :
    ("hdr%%body" : String).data = ("hdr" : String).data ++ ['%', '%'] ++ ("body" : String).data ∧
    docArtifact "hdr%%body" = (PostCfg.fromStr "hdr").map fun cfg => materialize cfg "body" :=
  (c5_separator_split "hdr%%body").2 "hdr" "body" (by decide)

/-- Claim C6 counterexample: for the malformed value `02-01-2024` the
header parse fails with `Expected ISO 8601 Date: trailing input`, a message
that contains the original parse error text but not the offending value
itself (splitting the message on the value finds no occurrence of it). -/
theorem c6_counterexample :
    PostCfg.fromStr "author = A\ntitle = T\npublished = 02-01-2024" =
      .error "Expected ISO 8601 Date: trailing input" ∧
    splitOnceStr "Expected ISO 8601 Date: trailing input" "02-01-2024" = none := by
  constructor
  · decide
  · decide

/-- Claim C6 (amended): for every header whose `published` or `edited`
value fails to parse as a `YYYY-MM-DD` date, metadata parsing of the whole
header fails with a bad-date error that is the fixed prefix
`Expected ISO 8601 Date: ` followed by the original parse error text; the
offending value itself is not part of the message. -/
theorem c6_bad_date (s : String) (pre post : List String) (l k v : String)
    (st : ScanState) (e : String)
    (hlines : linesOf s = pre ++ l :: post)
    (hpre : pre.foldlM processLine {} = .ok st)
    (hsplit : splitOnceStr (trimStr l) "=" = some (k, v))
    (hkey : trimStr k = "published" ∨ trimStr k = "edited")
    (hdate : parseDate (trimStr v) = .error e) :
    PostCfg.fromStr s = .error ("Expected ISO 8601 Date: " ++ e) := by
  have ht : ¬trimStr l = "" := by
    intro h0
    rw [h0, show splitOnceStr "" "=" = none from by decide] at hsplit
    exact absurd hsplit (by simp)
  have hwrap : parse_naive_date (trimStr v) = .error ("Expected ISO 8601 Date: " ++ e) := by
    unfold parse_naive_date
    rw [hdate]
    rfl
  have hline : processLine st l = .error ("Expected ISO 8601 Date: " ++ e) := by
    cases hkey with
    | inl hk => simp [processLine, ht, hsplit, hk, hwrap, Except.map]
    | inr hk => simp [processLine, ht, hsplit, hk, hwrap, Except.map]
  unfold PostCfg.fromStr scanHeader
  rw [hlines, List.foldlM_append, hpre]
  rw [show ((Except.ok st : Except String ScanState) >>= fun st' =>
      (l :: post).foldlM processLine st') = (l :: post).foldlM processLine st from rfl]
  rw [List.foldlM_cons, hline]
  rfl

/-- Claim C6 witness: a header with `published = 02-01-2024` fails with the
wrapped trailing-input parse error. -/
theorem c6_witness :
    PostCfg.fromStr "author = A\ntitle = T\npublished = 02-01-2024" =
      .error "Expected ISO 8601 Date: trailing input" :=
  c6_bad_date "author = A\ntitle = T\npublished = 02-01-2024"
    ["author = A", "title = T"] [] "published = 02-01-2024" "published " " 02-01-2024"
    ⟨some "A", some "T", none, none⟩ "trailing input"
    (by decide) (by decide) (by decide) (Or.inl (by decide)) (by decide)

/-- Claim C2: for every post list, the built tree has exactly one top-level
node, the synthetic `all_posts` grouping node with no content, and under it
exactly one leaf per post in discovery order, each leaf named after the
post's identifier and carrying the post as content; no leaf is duplicated
or dropped (position `i` of the children holds exactly the leaf of post
`i`). -/
theorem c2_tree_shape (posts : List Post) (m : ModuleTree) (i : Nat) (p : Post)
    (hm : m ∈ (build_module_tree posts).modules) :
    (build_module_tree posts).modules.length = 1 ∧
    m.name = "all_posts" ∧
    m.content = none ∧
    m.children.length = posts.length ∧
    m.children[i]? = (posts[i]?).map mkLeaf ∧
    (mkLeaf p).name = p.filename ∧
    (mkLeaf p).children = [] ∧
    (mkLeaf p).content = some (ModuleContent.post p) := by
  have hm' : m = ModuleTree.mk "all_posts" (posts.map mkLeaf) none := by
    simpa [build_module_tree] using hm
  subst hm'
  refine ⟨rfl, rfl, rfl, ?_, ?_, rfl, rfl, rfl⟩
  · simp [ModuleTree.children]
  · simp [ModuleTree.children, List.getElem?_map]

/-- Claim C2 witness at a single post and index 0. -/
theorem c2_witness :
    (build_module_tree [⟨"hello"⟩]).modules.length = 1 ∧
    (ModuleTree.mk "all_posts" [mkLeaf ⟨"hello"⟩] none).name = "all_posts" ∧
    (ModuleTree.mk "all_posts" [mkLeaf ⟨"hello"⟩] none).content = none ∧
    (ModuleTree.mk "all_posts" [mkLeaf ⟨"hello"⟩] none).children.length =
      [(⟨"hello"⟩ : Post)].length ∧
    (ModuleTree.mk "all_posts" [mkLeaf ⟨"hello"⟩] none).children[0]? =
      ([(⟨"hello"⟩ : Post)][0]?).map mkLeaf ∧
    (mkLeaf ⟨"hello"⟩).name = (⟨"hello"⟩ : Post).filename ∧
    (mkLeaf ⟨"hello"⟩).children = [] ∧
    (mkLeaf ⟨"hello"⟩).content = some (ModuleContent.post ⟨"hello"⟩) :=
  c2_tree_shape [⟨"hello"⟩] (ModuleTree.mk "all_posts" [mkLeaf ⟨"hello"⟩] none) 0 ⟨"hello"⟩
    (by simp [build_module_tree])

/-- Claim C3: the emitted output starts with the single path-resolution
helper macro line, and the tree is serialized depth-first pre-order: a node
with content has its content-embedding directive immediately before its own
`pub mod <name>\x7b`, children follow recursively in stored order, then the
scope closes with `\x7d`. -/
theorem c3_emitter (rt : Root) (n : String) (cs : List ModuleTree)
    (c : ModuleContent) (m : ModuleTree) (ms : List ModuleTree) :
    printTree rt = helperLine ++ printChildren rt.modules ∧
    printInner (.mk n cs (some c)) =
      c.render ++ "pub mod " ++ n ++ "\x7b" ++ printChildren cs ++ "\x7d" ∧
    printInner (.mk n cs none) =
      "pub mod " ++ n ++ "\x7b" ++ printChildren cs ++ "\x7d" ∧
    printChildren ([] : List ModuleTree) = "" ∧
    printChildren (m :: ms) = printInner m ++ printChildren ms := by
  refine ⟨rfl, ?_, ?_, ?_, ?_⟩
  · rw [printInner]
  · rw [printInner]
    have : (("" : String) ++ "pub mod ") = "pub mod " := by
      apply congrArg String.mk
      rfl
    rw [this]
  · rw [printChildren]
  · rw [printChildren]

/-- Claim C8 counterexample: the discovery step accepts the file name
`a b.md`, whose derived identifier `a b` contains whitespace, so derived
identifiers are not in general safe namespace-component names. -/
theorem c8_counterexample :
    entryId ⟨"a b.md", true, ""⟩ = some "a b" ∧ ' ' ∈ ("a b" : String).data := by
  constructor
  · decide
  · decide

/-- Claim C8 (amended): every discovered document's identifier equals the
file name with the `.md` extension stripped (and the entry is a regular
file); the code performs no validation that the identifier avoids
whitespace or separator tokens — that safety is an authoring convention. -/
theorem c8_identifier (e : FsEntry) (id : String) (h : entryId e = some id) :
    e.fileName.data = id.data ++ (".md" : String).data ∧ e.isFile = true := by
  unfold entryId at h
  cases hs : stripSuffixStr e.fileName ".md" with
  | none => rw [hs] at h; exact absurd h (by simp)
  | some idStripped =>
    simp only [hs] at h
    by_cases hf : e.isFile = true
    · rw [if_pos hf] at h
      obtain rfl := Option.some.inj h
      refine ⟨?_, hf⟩
      unfold stripSuffixStr at hs
      cases hq : stripSuffixL (".md" : String).data e.fileName.data with
      | none => rw [hq] at hs; exact absurd hs (by simp)
      | some q =>
        rw [hq] at hs
        simp only [Option.map_some', Option.some.injEq] at hs
        rw [← hs]
        exact stripSuffixL_eq_some hq
    · rw [if_neg hf] at h
      exact absurd h (by simp)

/-- Claim C8 witness at the file name `hello.md`. -/
theorem c8_witness :
    ("hello.md" : String).data = ("hello" : String).data ++ (".md" : String).data ∧
    (FsEntry.mk "hello.md" true "").isFile = true :=
  c8_identifier ⟨"hello.md", true, ""⟩ "hello" (by decide)

theorem processEntries_append (l₁ l₂ : List FsEntry) (arts a : List Artifact)
    (posts p : List Post) (h : processEntries l₁ arts posts = (a, .ok p)) :
    processEntries (l₁ ++ l₂) arts posts = processEntries l₂ a p := by
  induction l₁ generalizing arts posts with
  | nil =>
    simp only [processEntries, Prod.mk.injEq, Except.ok.injEq] at h
    obtain ⟨rfl, rfl⟩ := h
    simp
  | cons e rest ih =>
    simp only [List.cons_append, processEntries] at h ⊢
    cases he : entryId e with
    | none =>
      simp only [he] at h ⊢
      exact ih _ _ h
    | some id =>
      simp only [he] at h ⊢
      cases ha : docArtifact e.contents with
      | error msg =>
        simp only [ha] at h
        exact absurd h (by simp)
      | ok art =>
        simp only [ha] at h ⊢
        exact ih _ _ h

/-- Claim C9: when a document's metadata parsing fails, the build pass over
the directory aborts with that error; the artifacts written for the
documents processed earlier in the pass remain exactly as they were, and no
artifact is recorded for the failing document. -/
theorem c9_abort_keeps_earlier (pre : List FsEntry) (e : FsEntry)
    (rest : List FsEntry) (arts0 : List Artifact) (posts0 : List Post)
    (id hdr body msg : String)
    (hpre : processEntries pre [] [] = (arts0, .ok posts0))
    (hid : entryId e = some id)
    (hsplit : splitOnceStr e.contents "%%" = some (hdr, body))
    (hcfg : PostCfg.fromStr hdr = .error msg) :
    processEntries (pre ++ e :: rest) [] [] = (arts0, .error msg) := by
  rw [processEntries_append pre (e :: rest) [] arts0 [] posts0 hpre]
  have ha : docArtifact e.contents = .error msg := by
    unfold docArtifact
    simp only [hsplit, hcfg, Except.map]
  simp only [processEntries, hid, ha]

/-- Claim C9 witness: a good document followed by one with a malformed
published date; the first document's artifact survives, the pass errors. -/
theorem c9_witness :
    processEntries
      [⟨"hello.md", true, "author = Jane\ntitle = Hello\npublished = 2024-01-02\n%%\nBody text."⟩,
        ⟨"bad.md", true, "author = A\ntitle = T\npublished = 02-01-2024\n%%X"⟩] [] [] =
      ([⟨"posts/hello.md", "# Hello\n\n_By Jane on 2024-01-02_\n\n\nBody text."⟩],
        .error "Expected ISO 8601 Date: trailing input") :=
  c9_abort_keeps_earlier
    [⟨"hello.md", true, "author = Jane\ntitle = Hello\npublished = 2024-01-02\n%%\nBody text."⟩]
    ⟨"bad.md", true, "author = A\ntitle = T\npublished = 02-01-2024\n%%X"⟩ []
    [⟨"posts/hello.md", "# Hello\n\n_By Jane on 2024-01-02_\n\n\nBody text."⟩] [⟨"hello"⟩]
    "bad" "author = A\ntitle = T\npublished = 02-01-2024\n" "X"
    "Expected ISO 8601 Date: trailing input"
    (by decide) (by decide) (by decide) (by decide)

/-- Claim C10: a header line whose trimmed form is a recognized key (author
or title) followed by `=` and only whitespace is accepted, setting the
field to the empty string; an empty author is no parse error and is
rendered verbatim into the banner. -/
theorem c10_empty_value (st : ScanState) (l k v : String)
    (hsplit : splitOnceStr (trimStr l) "=" = some (k, v))
    (hval : trimStr v = "") :
    (trimStr k = "author" → processLine st l = .ok { st with author := some "" }) ∧
    (trimStr k = "title" → processLine st l = .ok { st with title := some "" }) ∧
    PostCfg.fromStr "author =\ntitle = T\npublished = 2024-01-02" =
      .ok ⟨"", ⟨2024, 1, 2⟩, "T", none⟩ ∧
    docArtifact "author =\ntitle = T\npublished = 2024-01-02\n%%B" =
      .ok "# T\n\n_By  on 2024-01-02_\n\nB" := by
  have ht : ¬trimStr l = "" := by
    intro h0
    rw [h0, show splitOnceStr "" "=" = none from by decide] at hsplit
    exact absurd hsplit (by simp)
  refine ⟨?_, ?_, by decide, by decide⟩
  · intro hk
    simp [processLine, ht, hsplit, hk, hval]
  · intro hk
    simp [processLine, ht, hsplit, hk, hval]

/-- Claim C10 witness at the line `author =`. -/
theorem c10_witness :
    processLine ⟨none, none, none, none⟩ "author =" = .ok ⟨some "", none, none, none⟩ :=
  (c10_empty_value ⟨none, none, none, none⟩ "author =" "author " ""
    (by decide) (by decide)).1 (by decide)
